import Mathlib

/-!
Verification of the go-ndn core against its specification.

The development shallowly embeds the Go sources:
* package `encoding` (Buffer, Wire, Wire.Join, the error wrappers, the
  ParseReader interface), and
* package `schema` (Tree.Attach, Tree.Detach, Tree.Match, Tree.intHandler,
  Tree.PutNode).

Bytes are modelled as natural numbers, a Go byte slice as a list of bytes.
Interface methods whose implementation is outside the embedded sources
(NTNode.Match, ParseReader.Range) are modelled from the specification and
carry a doc comment saying so.
-/

namespace GoNdn

/-- Buffer is a buffer of bytes (Go: `type Buffer []byte`). -/
abbrev Buffer := List Nat

/-- Wire is a collection of Buffer (Go: `type Wire []Buffer`). -/
abbrev Wire := List Buffer

/-- Go `func (w Wire) Join() []byte`: empty wire gives an empty slice, a
one-element wire returns its sole buffer, otherwise the buffers are copied
one after the other into one buffer (here: folded with append, first buffer
as the start). -/
def Wire.Join : Wire → Buffer
  | [] => []
  | [b] => b
  | b :: rest => rest.foldl (· ++ ·) b

theorem foldl_append_eq (l : List Buffer) (init : Buffer) :
    l.foldl (· ++ ·) init = init ++ l.flatten := by
  induction l generalizing init with
  | nil => simp
  | cons b rest ih => simp [List.foldl_cons, ih, List.append_assoc]

theorem wire_join_eq_join (w : Wire) : Wire.Join w = w.flatten := by
  match w with
  | [] => rfl
  | [b] => simp [Wire.Join]
  | b :: c :: rest => simp [Wire.Join, foldl_append_eq]

/-- C3: Wire.Join returns the in-order concatenation of the buffers: it
equals the flattened list, its length is the sum of the component lengths,
and every byte agrees with the logically contiguous stream. -/
theorem c3_wire_join_concat (w : Wire) :
    Wire.Join w = w.flatten
    ∧ (Wire.Join w).length = (w.map List.length).sum
    ∧ ∀ i : Nat, (Wire.Join w).getD i 0 = (w.flatten).getD i 0 := by
  refine ⟨wire_join_eq_join w, ?_, ?_⟩
  · rw [wire_join_eq_join w, List.length_flatten]
  · intro i; rw [wire_join_eq_join w]

/-- C10: Join of the empty wire is the empty buffer, Join of a one-element
wire is that element itself, and only for two or more buffers is a fresh
concatenation built. -/
theorem c10_wire_join_cases :
    Wire.Join [] = ([] : Buffer)
    ∧ (∀ b : Buffer, Wire.Join [b] = b)
    ∧ (∀ (b c : Buffer) (rest : Wire),
        Wire.Join (b :: c :: rest) = b ++ c ++ rest.flatten) := by
  refine ⟨rfl, fun b => rfl, fun b c rest => ?_⟩
  rw [wire_join_eq_join]
  simp [List.append_assoc]

/-- A Go error value, observed through its `Error() string` method. -/
structure GoError where
  msg : String
  deriving DecidableEq, Repr

/-- TLNum is a non-negative integer used for TLV type and length numbers. -/
abbrev TLNum := Nat

/-- Go `type ErrFailToParse struct { TypeNum TLNum; Err error }`. -/
structure ErrFailToParse where
  TypeNum : TLNum
  Err : GoError
  deriving DecidableEq, Repr

/-- Go `func (e ErrFailToParse) Error() string`, which formats
`"Failed to parse field %d: %v"` with the type number and the wrapped
error (whose `%v` rendering is its message). -/
def ErrFailToParse.Error (e : ErrFailToParse) : String :=
  "Failed to parse field " ++ toString e.TypeNum ++ ": " ++ e.Err.msg

/-- Go `func (e ErrFailToParse) Unwrap() error { return e.Err }`. -/
def ErrFailToParse.Unwrap (e : ErrFailToParse) : GoError :=
  e.Err

/-- C7: the ErrFailToParse wrapper identifies the offending field: Unwrap
returns exactly the wrapped error, and the Error string contains the type
number and the wrapped error message. -/
theorem c7_fail_to_parse_wrapper (t : TLNum) (e : GoError) :
    (ErrFailToParse.mk t e).Unwrap = e
    ∧ (∃ p q : String,
        (ErrFailToParse.mk t e).Error = p ++ toString t ++ q)
    ∧ (∃ p q : String,
        (ErrFailToParse.mk t e).Error = p ++ e.msg ++ q) := by
  refine ⟨rfl, ⟨"Failed to parse field ", ": " ++ e.msg, ?_⟩,
    ⟨"Failed to parse field " ++ toString t ++ ": ", "", ?_⟩⟩
  · simp [ErrFailToParse.Error, String.append_assoc]
  · simp [ErrFailToParse.Error, String.append_assoc]

/-- Modelled from the spec: the implementation of ParseReader is not among
the embedded sources (only the interface declaration is). The spec says
Range(a,b) returns a Wire covering absolute offsets [a,b) without copy and
without moving the cursor. This helper collects, zero-copy, the slice of
the buffer list that starts at absolute offset s and spans len bytes:
buffers wholly before s are skipped, the first and last buffers touched
are trimmed, and whole buffers in between are reused as-is. -/
def Wire.rangeFrom : Wire → Nat → Nat → Wire
  | [], _, _ => []
  | b :: rest, s, len =>
    if len = 0 then []
    else if b.length ≤ s then Wire.rangeFrom rest (s - b.length) len
    else if len ≤ b.length - s then [(b.drop s).take len]
    else b.drop s :: Wire.rangeFrom rest 0 (len - (b.length - s))

/-- A ParseReader over a Wire: the underlying buffers and a cursor. -/
structure WireReader where
  wire : Wire
  pos : Nat

/-- Modelled from the spec: `Range(start, end)` of a ParseReader. It reads
only the underlying wire and ignores (hence never moves) the cursor. -/
def WireReader.Range (r : WireReader) (start stop : Nat) : Wire :=
  Wire.rangeFrom r.wire start (stop - start)

theorem rangeFrom_join (w : Wire) :
    ∀ s len : Nat,
      (Wire.rangeFrom w s len).flatten = ((w.flatten).drop s).take len := by
  induction w with
  | nil => intro s len; simp [Wire.rangeFrom]
  | cons b rest ih =>
    intro s len
    rw [Wire.rangeFrom]
    by_cases h0 : len = 0
    · simp [h0]
    · rw [if_neg h0]
      by_cases h1 : b.length ≤ s
      · rw [if_pos h1, ih]
        rw [List.flatten_cons, List.drop_append_eq_append_drop,
          List.drop_eq_nil_of_le h1, List.nil_append]
      · rw [if_neg h1]
        push_neg at h1
        have hdrop : (b ++ rest.flatten).drop s
            = b.drop s ++ rest.flatten := by
          rw [List.drop_append_eq_append_drop,
            Nat.sub_eq_zero_of_le (Nat.le_of_lt h1), List.drop_zero]
        by_cases h2 : len ≤ b.length - s
        · rw [if_pos h2]
          have hlen : len ≤ (b.drop s).length := by
            rw [List.length_drop]; exact h2
          simp only [List.flatten_cons, List.flatten_nil, List.append_nil,
            hdrop, List.take_append_eq_append_take,
            Nat.sub_eq_zero_of_le hlen, List.take_zero]
        · rw [if_neg h2]
          push_neg at h2
          have hfull : (b.drop s).length ≤ len := by
            rw [List.length_drop]; exact Nat.le_of_lt h2
          rw [List.flatten_cons, List.flatten_cons, hdrop,
            List.take_append_eq_append_take,
            List.take_of_length_le hfull, ih, List.drop_zero,
            List.length_drop]

/-- C4: for a reader over a non-empty wire and indices a less than or equal
to b within the joined length, Range(a,b) returns a wire whose Join equals
the corresponding slice of the joined underlying bytes; Range takes no
cursor input, so the cursor is untouched. -/
theorem c4_range_join (r : WireReader) (a b : Nat)
    (hw : r.wire ≠ []) (hab : a ≤ b)
    (hb : b ≤ (Wire.Join r.wire).length) :
    Wire.Join (r.Range a b) = ((Wire.Join r.wire).drop a).take (b - a) := by
  rw [wire_join_eq_join, wire_join_eq_join, WireReader.Range, rangeFrom_join]

/-- Witness for C4 at a concrete reader: the wire [[10,11],[12,13,14]],
offsets a = 1, b = 4, cursor at 0. -/
theorem c4_range_join_witness :
    Wire.Join (WireReader.Range ⟨[[10, 11], [12, 13, 14]], 0⟩ 1 4)
      = ((Wire.Join [[10, 11], [12, 13, 14]]).drop 1).take 3 := by
  have h := c4_range_join ⟨[[10, 11], [12, 13, 14]], 0⟩ 1 4
    (by decide) (by decide) (by decide)
  simpa using h

/-- A name component: a TLV type number and a value buffer. -/
structure Component where
  typ : Nat
  val : Buffer
  deriving DecidableEq, Repr

/-- An NDN name is an ordered sequence of components. -/
abbrev Name := List Component

/-- Component type number of an invalid (zero-valued) component; the Go
zero value `enc.Component\x7b\x7d` has this type number. -/
def TypeInvalidComponent : Nat := 0

/-- Component type number ImplicitSha256Digest = 1 (spec section 3). -/
def TypeImplicitSha256DigestComponent : Nat := 1

/-- Component type number ParametersSha256Digest = 2 (spec section 3). -/
def TypeParametersSha256DigestComponent : Nat := 2

/-- One element of a NamePattern: a literal component, or a variable slot
with a tag name. -/
inductive PatComp where
  | lit (c : Component)
  | var (tag : String)
  deriving DecidableEq, Repr

/-- A NamePattern is a list of pattern components. -/
abbrev NamePattern := List PatComp

/-- Whether a pattern component is a literal. -/
def PatComp.isLit : PatComp → Bool
  | .lit _ => true
  | .var _ => false

/-- A Matching maps slot tags to the captured value buffers; modelled as an
association list in insertion order. -/
abbrev Matching := List (String × Buffer)

/-- Go map assignment `m[k] = v`: replace the binding of k if present,
otherwise append it. -/
def Matching.put : Matching → String → Buffer → Matching
  | [], k, v => [(k, v)]
  | (k', v') :: rest, k, v =>
    if k' = k then (k, v) :: rest else (k', v') :: Matching.put rest k v

/-- A schema tree node: an identity and the ordered list of child edges
(insertion order), each edge labelled by a pattern component. -/
inductive SNode where
  | mk (id : Nat) (children : List (PatComp × SNode))

/-- The identity of a node. -/
def SNode.id : SNode → Nat
  | .mk i _ => i

/-- The ordered child edges of a node. -/
def SNode.children : SNode → List (PatComp × SNode)
  | .mk _ cs => cs

/-- The children in the order Match tries them: literal edges first, then
variable-slot edges, each group in insertion order. -/
def SNode.orderedChildren (n : SNode) : List (PatComp × SNode) :=
  n.children.filter (fun pr => pr.1.isLit)
    ++ n.children.filter (fun pr => !pr.1.isLit)

/-- Modelled from the spec: NTNode.Match is not among the embedded sources
(NTNode is an interface there). The spec says Match walks root-to-leaf
edges consuming name components; at each edge it tries literal children
first, then variable-slot children in insertion order; a variable slot
binds the value buffer of the component under the slot tag. The first
child under which the rest of the name matches wins. An exhausted name
returns the current node with the bindings collected so far. -/
def SNode.matchName : List Component → SNode → Matching → Option (SNode × Matching)
  | [], n, m => some (n, m)
  | c :: cs, n, m =>
    (SNode.orderedChildren n).findSome? fun pr =>
      match pr.1 with
      | .lit c' => if c' = c then SNode.matchName cs pr.2 m else none
      | .var tag => SNode.matchName cs pr.2 (Matching.put m tag c.val)

/-- The candidate function Match uses on one child edge: a literal edge is
taken when it equals the component, a variable edge always, binding the
component value under the tag. -/
def SNode.tryChild (cs : List Component) (c : Component) (m : Matching)
    (pr : PatComp × SNode) : Option (SNode × Matching) :=
  match pr.1 with
  | .lit c' => if c' = c then SNode.matchName cs pr.2 m else none
  | .var tag => SNode.matchName cs pr.2 (Matching.put m tag c.val)

theorem matchName_cons (c : Component) (cs : List Component) (n : SNode)
    (m : Matching) :
    SNode.matchName (c :: cs) n m
      = (SNode.orderedChildren n).findSome? (SNode.tryChild cs c m) := rfl

/-- Go `func (t *Tree) Match(name enc.Name) (NTNode, enc.Matching)`:
delegates to the root with an empty matching. -/
def Tree.MatchT (root : SNode) (name : Name) : Option (SNode × Matching) :=
  SNode.matchName name root []

theorem findSome?_of_prefix_none {α β : Type} (f : α → Option β)
    (pre : List α) (x : α) (post : List α) (b : β)
    (hpre : ∀ q ∈ pre, f q = none) (hx : f x = some b) :
    List.findSome? f (pre ++ x :: post) = some b := by
  induction pre with
  | nil => simp [List.findSome?_cons, hx]
  | cons q rest ih =>
    rw [List.cons_append, List.findSome?_cons, hpre q (by simp)]
    exact ih fun q' h => hpre q' (by simp [h])

/-- C6: Match is a deterministic function of the tree and the name — two
calls return the same result — and ties are broken by order: whenever the
ordered child list splits as pre ++ winner :: post with every candidate in
pre failing and the winner succeeding, Match returns the winner result
(literal edges precede variable edges in orderedChildren, and each group
keeps insertion order, so ties between variable slots go to the earliest
inserted). -/
theorem c6_match_deterministic :
    (∀ (root : SNode) (name : Name),
      Tree.MatchT root name = Tree.MatchT root name)
    ∧ ∀ (n : SNode) (c : Component) (cs : List Component) (m : Matching)
        (pre : List (PatComp × SNode)) (pr : PatComp × SNode)
        (post : List (PatComp × SNode)) (r : SNode × Matching),
        SNode.orderedChildren n = pre ++ pr :: post →
        (∀ q ∈ pre, SNode.tryChild cs c m q = none) →
        SNode.tryChild cs c m pr = some r →
        SNode.matchName (c :: cs) n m = some r := by
  refine ⟨fun root name => rfl, ?_⟩
  intro n c cs m pre pr post r hsplit hpre hpr
  rw [matchName_cons, hsplit]
  exact findSome?_of_prefix_none _ pre pr post r hpre hpr

/-- Witness for C6 at a concrete tree: a root with two variable-slot
children inserted as tags a then b; matching a one-component name binds
the first-inserted slot a and returns its child. -/
theorem c6_match_deterministic_witness :
    SNode.matchName [⟨8, [1]⟩]
        (SNode.mk 0 [(PatComp.var "a", SNode.mk 1 []),
                     (PatComp.var "b", SNode.mk 2 [])]) []
      = some (SNode.mk 1 [], [("a", [1])]) := by
  exact c6_match_deterministic.2
    (SNode.mk 0 [(PatComp.var "a", SNode.mk 1 []),
                 (PatComp.var "b", SNode.mk 2 [])])
    ⟨8, [1]⟩ [] [] []
    (PatComp.var "a", SNode.mk 1 [])
    [(PatComp.var "b", SNode.mk 2 [])]
    (SNode.mk 1 [], [("a", [1])])
    rfl (fun q hq => absurd hq (List.not_mem_nil q)) rfl

/-- The observable outcome of Tree.intHandler on one incoming Interest:
the out-of-range index access on an empty name (a Go runtime panic), a
dropped Interest (no node matched), or dispatch of OnInterest on the
matched node with the final matching. -/
inductive HandlerResult where
  | panicked
  | dropped
  | dispatched (nd : SNode) (m : Matching)

/-- Go `func (t *Tree) intHandler(...)` over a tree whose root is `root`
and an Interest whose name is `name`. The code reads
`matchName[len(matchName)-1]` unconditionally, so an empty name is the
panic case; a trailing ParametersSha256Digest or ImplicitSha256Digest
component is remembered as extraComp and stripped before matching; a nil
match drops the Interest; otherwise the digest value is added to the
matching under params-sha256 or sha256digest and OnInterest is invoked. -/
def Tree.intHandlerRun (root : SNode) (name : Name) : HandlerResult :=
  match name.getLast? with
  | none => .panicked
  | some lastC =>
    let isDigest := lastC.typ = TypeParametersSha256DigestComponent
      ∨ lastC.typ = TypeImplicitSha256DigestComponent
    let stripped := if isDigest then name.dropLast else name
    let extraComp : Component := if isDigest then lastC else ⟨0, []⟩
    match SNode.matchName stripped root [] with
    | none => .dropped
    | some (nd, m) =>
      let m' :=
        if extraComp.typ ≠ TypeInvalidComponent then
          if extraComp.typ = TypeParametersSha256DigestComponent then
            Matching.put m "params-sha256" extraComp.val
          else if extraComp.typ = TypeImplicitSha256DigestComponent then
            Matching.put m "sha256digest" extraComp.val
          else m
        else m
      .dispatched nd m'

/-- C8: when the last component of the Interest name is a
ParametersSha256Digest or ImplicitSha256Digest component, intHandler
matches the name with that component stripped; if no node matches it
drops the Interest, and if a node matches it dispatches OnInterest on
that node with the digest value added under params-sha256 respectively
sha256digest. -/
theorem c8_inthandler_digest (root : SNode) (name : Name)
    (lastC : Component)
    (hlast : name.getLast? = some lastC)
    (hdig : lastC.typ = TypeParametersSha256DigestComponent
      ∨ lastC.typ = TypeImplicitSha256DigestComponent) :
    (SNode.matchName name.dropLast root [] = none →
      Tree.intHandlerRun root name = .dropped)
    ∧ ∀ (nd : SNode) (m : Matching),
        SNode.matchName name.dropLast root [] = some (nd, m) →
        Tree.intHandlerRun root name
          = .dispatched nd
              (Matching.put m
                (if lastC.typ = TypeParametersSha256DigestComponent
                  then "params-sha256" else "sha256digest") lastC.val) := by
  constructor
  · intro hm
    simp [Tree.intHandlerRun, hlast, if_pos hdig, hm]
  · intro nd m hm
    rcases hdig with h | h
    · simp [Tree.intHandlerRun, hlast, h, hm,
        TypeParametersSha256DigestComponent,
        TypeImplicitSha256DigestComponent, TypeInvalidComponent]
    · simp [Tree.intHandlerRun, hlast, h, hm,
        TypeParametersSha256DigestComponent,
        TypeImplicitSha256DigestComponent, TypeInvalidComponent]

/-- Witness for C8 at a concrete tree and Interest: the name ends in a
ParametersSha256Digest component, the stripped name matches the variable
child, and OnInterest receives the matching extended at params-sha256. -/
theorem c8_inthandler_digest_witness :
    Tree.intHandlerRun (SNode.mk 0 [(PatComp.var "a", SNode.mk 1 [])])
        [⟨8, [5]⟩, ⟨2, [9]⟩]
      = .dispatched (SNode.mk 1 []) [("a", [5]), ("params-sha256", [9])] := by
  have h := (c8_inthandler_digest
      (SNode.mk 0 [(PatComp.var "a", SNode.mk 1 [])])
      [⟨8, [5]⟩, ⟨2, [9]⟩] ⟨2, [9]⟩ rfl (Or.inl rfl)).2
      (SNode.mk 1 []) [("a", [5])] rfl
  simpa [TypeParametersSha256DigestComponent, Matching.put] using h

/-- C9: intHandler reads the last name component unconditionally; the
handler reaches a non-panicking outcome exactly when the Interest name is
non-empty, and the empty name is the out-of-bounds case. -/
theorem c9_inthandler_last_access (root : SNode) (name : Name) :
    Tree.intHandlerRun root name = .panicked ↔ name = [] := by
  constructor
  · intro h
    by_contra hne
    obtain ⟨lastC, hl⟩ : ∃ lastC, name.getLast? = some lastC := by
      cases hg : name.getLast? with
      | none => exact absurd (List.getLast?_eq_none_iff.mp hg) hne
      | some c => exact ⟨c, rfl⟩
    simp only [Tree.intHandlerRun, hl] at h
    revert h
    split <;> simp
  · intro h
    subst h
    rfl

/-- A reference to a schema node as Tree.PutNode sees it: the fresh
BaseNode placeholder the code allocates, or some other node. -/
inductive SchemaNodeRef where
  | baseNode
  | node (id : Nat)
  deriving DecidableEq, Repr

/-- The root field of a Tree (nil or a node). -/
structure TreeRoot where
  root : Option SchemaNodeRef
  deriving DecidableEq, Repr

/-- The outcome of Tree.PutNode: the node installed as root, the
already-exists error (with the unchanged tree), or delegation to
root.PutNode with the root value the interface call receives. -/
inductive PutOutcome where
  | installed (t : TreeRoot)
  | already (t : TreeRoot) (msg : String)
  | delegated (root : SchemaNodeRef) (path : NamePattern) (nd : SchemaNodeRef)
  deriving DecidableEq, Repr

/-- Go `func (t *Tree) PutNode(path enc.NamePattern, node NTNode) error`:
an empty path installs the node as root when the root is nil and errors
when it is occupied; a non-empty path first creates a BaseNode placeholder
root when the root is nil, then delegates to the root node PutNode (an
interface call, reified here as the delegated outcome). -/
def Tree.PutNodeRun (t : TreeRoot) (path : NamePattern) (nd : SchemaNodeRef) :
    PutOutcome :=
  match path with
  | [] =>
    match t.root with
    | none => .installed ⟨some nd⟩
    | some _ => .already t "schema node already exists"
  | c :: cs =>
    match t.root with
    | none => .delegated SchemaNodeRef.baseNode (c :: cs) nd
    | some r => .delegated r (c :: cs) nd

/-- C5: PutNode with an empty path errors with already-exists and leaves
the tree unchanged when the root is occupied, installs the node as root
when there is none, and with a non-empty path and no root creates a
BaseNode placeholder root before delegating installation to the root
PutNode. -/
theorem c5_putnode_cases :
    (∀ (r : SchemaNodeRef) (nd : SchemaNodeRef),
      Tree.PutNodeRun ⟨some r⟩ [] nd
        = .already ⟨some r⟩ "schema node already exists")
    ∧ (∀ nd : SchemaNodeRef,
      Tree.PutNodeRun ⟨none⟩ [] nd = .installed ⟨some nd⟩)
    ∧ (∀ (c : PatComp) (cs : NamePattern) (nd : SchemaNodeRef),
      Tree.PutNodeRun ⟨none⟩ (c :: cs) nd
        = .delegated SchemaNodeRef.baseNode (c :: cs) nd) := by
  exact ⟨fun r nd => rfl, fun nd => rfl, fun c cs nd => rfl⟩

/-- One observable step of Tree.Attach and Tree.Detach: the invocations of
Root.SetAttachedPrefix, Root.OnAttach, Engine.AttachHandler,
Engine.DetachHandler and Root.OnDetach, with the data each receives. -/
inductive Step where
  | setPfx (p : Name)
  | onAttach (path : NamePattern)
  | regHandler (p : Name)
  | detachHandler (p : Name)
  | onDetach
  deriving DecidableEq, Repr

/-- The results the three fallible calls inside Tree.Attach return in one
run: none means success, some e the error e. -/
structure AttachEnv where
  setPfxErr : Option GoError
  onAttachErr : Option GoError
  attachHandlerErr : Option GoError
  deriving DecidableEq, Repr

/-- The tree state the Attach and Detach code touches: whether t.Engine is
set, whether the Interest handler is registered on the engine, the prefix
bound to the root, and how often OnAttach and OnDetach have been invoked. -/
structure TreeSt where
  engineAttached : Bool
  handlerRegistered : Bool
  attachedPfx : Name
  onAttachCount : Nat
  onDetachCount : Nat
  deriving DecidableEq, Repr

/-- A freshly constructed tree: no engine, no handler, nothing invoked. -/
def TreeSt.init : TreeSt := ⟨false, false, [], 0, 0⟩

/-- Result of one Tree.Attach run: the new state, the invocation trace and
the returned error. -/
structure AttachOut where
  st : TreeSt
  trace : List Step
  res : Option GoError
  deriving DecidableEq, Repr

/-- Go `func (t *Tree) Attach(prefix enc.Name, engine ndn.Engine) error`:
SetAttachedPrefix on the root; on success build the NamePattern path from
the prefix components and invoke OnAttach on the root; on success register
intHandler on the engine; on success set t.Engine. Each error returns at
once, leaving the later calls unperformed and t.Engine untouched. -/
def Tree.AttachRun (env : AttachEnv) (pfx : Name) (t : TreeSt) : AttachOut :=
  match env.setPfxErr with
  | some e => ⟨t, [.setPfx pfx], some e⟩
  | none =>
    let t1 : TreeSt := { t with attachedPfx := pfx }
    let path : NamePattern := pfx.map PatComp.lit
    let t2 : TreeSt := { t1 with onAttachCount := t1.onAttachCount + 1 }
    match env.onAttachErr with
    | some e => ⟨t2, [.setPfx pfx, .onAttach path], some e⟩
    | none =>
      match env.attachHandlerErr with
      | some e => ⟨t2, [.setPfx pfx, .onAttach path, .regHandler pfx], some e⟩
      | none =>
        ⟨{ t2 with engineAttached := true, handlerRegistered := true },
         [.setPfx pfx, .onAttach path, .regHandler pfx], none⟩

/-- Go `func (t *Tree) Detach()`: returns at once when t.Engine is nil;
otherwise DetachHandler(root.AttachedPrefix()) on the engine, then
OnDetach on the root. The code never resets t.Engine to nil. -/
def Tree.DetachRun (t : TreeSt) : TreeSt × List Step :=
  if t.engineAttached then
    ({ t with handlerRegistered := false,
              onDetachCount := t.onDetachCount + 1 },
     [.detachHandler t.attachedPfx, .onDetach])
  else (t, [])

/-- C1: a successful Attach performs, in order, the prefix binding, the
OnAttach call with the prefix converted to a NamePattern path, and only
then the handler registration; the handler is registered only when
SetAttachedPrefix and OnAttach both succeeded (so no OnInterest can
precede a completed OnAttach); on any error the later steps are skipped
and t.Engine and the handler registration are left untouched. -/
theorem c1_attach_order (env : AttachEnv) (pfx : Name) (t : TreeSt) :
    ((Tree.AttachRun env pfx t).res = none →
      (Tree.AttachRun env pfx t).trace
        = [Step.setPfx pfx, Step.onAttach (pfx.map PatComp.lit),
           Step.regHandler pfx]
      ∧ (Tree.AttachRun env pfx t).st.engineAttached = true
      ∧ (Tree.AttachRun env pfx t).st.handlerRegistered = true)
    ∧ (Step.regHandler pfx ∈ (Tree.AttachRun env pfx t).trace →
        env.setPfxErr = none ∧ env.onAttachErr = none)
    ∧ ((Tree.AttachRun env pfx t).res ≠ none →
        (Tree.AttachRun env pfx t).st.engineAttached = t.engineAttached
        ∧ (Tree.AttachRun env pfx t).st.handlerRegistered
            = t.handlerRegistered)
    ∧ (env.setPfxErr ≠ none →
        (Tree.AttachRun env pfx t).trace = [Step.setPfx pfx])
    ∧ (env.setPfxErr = none → env.onAttachErr ≠ none →
        (Tree.AttachRun env pfx t).trace
          = [Step.setPfx pfx, Step.onAttach (pfx.map PatComp.lit)]) := by
  obtain ⟨e1, e2, e3⟩ := env
  cases e1 <;> cases e2 <;> cases e3 <;> simp [Tree.AttachRun]

/-- Witness for C1 at a concrete run: every call succeeds, the trace is
the three steps in order and the engine ends up set. -/
theorem c1_attach_order_witness :
    (Tree.AttachRun ⟨none, none, none⟩ [⟨8, [1]⟩] TreeSt.init).trace
      = [Step.setPfx [⟨8, [1]⟩], Step.onAttach [PatComp.lit ⟨8, [1]⟩],
         Step.regHandler [⟨8, [1]⟩]]
    ∧ (Tree.AttachRun ⟨none, none, none⟩ [⟨8, [1]⟩] TreeSt.init).st.engineAttached
        = true := by
  have h := (c1_attach_order ⟨none, none, none⟩ [⟨8, [1]⟩] TreeSt.init).1 rfl
  exact ⟨h.1, h.2.1⟩

/-- C2 counterexample: one successful Attach followed by two Detach calls
fires OnDetach twice, not exactly once per attach cycle — Detach never
resets t.Engine to nil, so its initial engine-nil guard does not stop the
second call. -/
theorem c2_detach_counterexample :
    (Tree.AttachRun ⟨none, none, none⟩ [⟨8, [1]⟩] TreeSt.init).res = none
    ∧ (Tree.DetachRun (Tree.DetachRun
        (Tree.AttachRun ⟨none, none, none⟩ [⟨8, [1]⟩]
          TreeSt.init).st).1).1.onDetachCount = 2
    ∧ ¬ (Tree.DetachRun (Tree.DetachRun
        (Tree.AttachRun ⟨none, none, none⟩ [⟨8, [1]⟩]
          TreeSt.init).st).1).1.onDetachCount = 1 := by
  refine ⟨rfl, rfl, ?_⟩
  intro h
  simp [Tree.AttachRun, Tree.DetachRun, TreeSt.init] at h

/-- C2 amended: every Detach call on a tree whose engine is set first
unregisters the handler and then invokes OnDetach, once per such call;
afterwards the handler is no longer registered, and a subsequent Attach on
the same prefix (with every call succeeding) succeeds. But since Detach
leaves t.Engine set, a second Detach after one Attach fires DetachHandler
and OnDetach again: OnDetach fires once per Detach call on an attached
tree, not once per attach cycle. A Detach on a tree with no engine does
nothing. -/
theorem c2_detach_amended (t : TreeSt) :
    (t.engineAttached = true →
      Tree.DetachRun t
        = ({ t with handlerRegistered := false,
                    onDetachCount := t.onDetachCount + 1 },
           [Step.detachHandler t.attachedPfx, Step.onDetach])
      ∧ (Tree.DetachRun t).1.engineAttached = true
      ∧ (Tree.DetachRun (Tree.DetachRun t).1).1.onDetachCount
          = t.onDetachCount + 2)
    ∧ (t.engineAttached = false → Tree.DetachRun t = (t, []))
    ∧ (∀ pfx : Name,
        (Tree.AttachRun ⟨none, none, none⟩ pfx (Tree.DetachRun t).1).res
          = none
        ∧ (Tree.AttachRun ⟨none, none, none⟩ pfx
            (Tree.DetachRun t).1).st.engineAttached = true) := by
  refine ⟨?_, ?_, ?_⟩
  · intro h
    refine ⟨?_, ?_, ?_⟩ <;> simp [Tree.DetachRun, h]
  · intro h
    simp [Tree.DetachRun, h]
  · intro pfx
    exact ⟨rfl, rfl⟩

/-- Witness for C2 amended at a concrete attached tree: Detach unregisters
the handler, then invokes OnDetach once, in that order. -/
theorem c2_detach_amended_witness :
    Tree.DetachRun ⟨true, true, [⟨8, [1]⟩], 1, 0⟩
      = (⟨true, false, [⟨8, [1]⟩], 1, 1⟩,
         [Step.detachHandler [⟨8, [1]⟩], Step.onDetach]) := by
  have h := ((c2_detach_amended ⟨true, true, [⟨8, [1]⟩], 1, 0⟩).1 rfl).1
  simpa using h

end GoNdn
